import Mathlib

/-!
Verification of the time-blocking scheduler core
(`src/apps/todo/src/domain`): time model, task model, conflict
detection, the `SequenceBasedStrategy` placement algorithm and the
`Scheduler` orchestrator.

The embedding is shallow: Python `datetime` values are modelled as
integer minutes, `timedelta(minutes=k)` as integer addition, lists as
`List`, Python sets of ids as `List String` used only through
membership, and `Optional`/`raise` as `Option`/`Except`.  Python's
stable `list.sort` is modelled by a stable insertion sort.  All
definitions follow `task.py`, `timeblock.py`, `conflict.py`,
`scheduling/strategies.py` and `scheduler.py`; deviations forced by
code that is absent from the source tree are marked `Modelled from the
spec:` in their doc comments.
-/

namespace TodoScheduler

/-- Embeds `ZoneType` from `task.py`. -/
inductive ZoneType where
  | deep
  | light
  | admin
deriving DecidableEq, Repr

/-- Embeds `EnergyLevel` from `task.py`. -/
inductive EnergyLevel where
  | high
  | medium
  | low
deriving DecidableEq, Repr

/-- Embeds `TaskConstraints` from `task.py`. -/
structure TaskConstraints where
  zone_type : ZoneType
  energy_level : EnergyLevel
  is_splittable : Bool
  min_chunk_duration : Int
  max_split_count : Int
  required_buffer : Int
  dependencies : List String
deriving DecidableEq, Repr

/-- Embeds `Task` from `task.py`.  Modelled from the spec: the spec's data
model (§3) and the strategy's sort key include a `sequence_number`
field which the `Task` dataclass in `src/domain/task.py` does not
declare, although `strategies.py` reads `t.sequence_number` and every
test constructs `Task(..., sequence_number=...)`.  The field is added
here, following the spec. -/
structure Task where
  id : String
  title : String
  duration : Int
  due_date : Int
  priority : Int
  project_id : String
  sequence_number : Int
  constraints : TaskConstraints
deriving DecidableEq, Repr

/-- Embeds `TimeBlockType` from `timeblock.py`. -/
inductive TimeBlockType where
  | fixed
  | managed
  | zone
deriving DecidableEq, Repr

/-- Embeds `Event` from `timeblock.py` (`end` is spelled `end_` because `end`
is a Lean keyword). -/
structure Event where
  id : String
  start : Int
  end_ : Int
  title : String
  type : TimeBlockType
  buffer_required : Int := 0
deriving DecidableEq, Repr

/-- Embeds `TimeBlock` from `timeblock.py`. -/
structure TimeBlock where
  start : Int
  end_ : Int
  type : TimeBlockType
  events : List Event := []
deriving DecidableEq, Repr

/-- Embeds `TimeBlock.get_conflicts`: events overlapping the half-open
interval `[start, start+duration)`. -/
def TimeBlock.get_conflicts (b : TimeBlock) (start duration : Int) : List Event :=
  let e := start + duration
  b.events.filter (fun ev => start < ev.end_ && e > ev.start)

/-- Embeds `TimeBlock.is_available`. -/
def TimeBlock.is_available (b : TimeBlock) (start duration : Int) : Bool :=
  if start < b.start || start + duration > b.end_ then false
  else (b.get_conflicts start duration).isEmpty

/-- Embeds `TimeBlockZone` from `timeblock.py`. -/
structure TimeBlockZone where
  start : Int
  end_ : Int
  zone_type : ZoneType
  energy_level : EnergyLevel
  min_duration : Int
  buffer_required : Int
  type : TimeBlockType := TimeBlockType.zone
  events : List Event := []
deriving DecidableEq, Repr

/-- Embeds `TimeBlockZone.get_conflicts`: direct overlaps plus, when the zone
carries a positive buffer, events overlapping the probe inflated by
the zone buffer on both sides (Python's `event not in conflicts`
membership test is modelled by structural list membership). -/
def TimeBlockZone.get_conflicts (z : TimeBlockZone) (start duration : Int) : List Event :=
  let e := start + duration
  let conflicts := z.events.filter (fun ev => start < ev.end_ && e > ev.start)
  if z.buffer_required > 0 then
    let buffer_start := start - z.buffer_required
    let buffer_end := start + duration + z.buffer_required
    let buffer_conflicts := z.events.filter (fun ev =>
      (buffer_start < ev.end_ && buffer_end > ev.start) && !(conflicts.contains ev))
    conflicts ++ buffer_conflicts
  else
    conflicts

/-- Embeds `TimeBlockZone.is_available`. -/
def TimeBlockZone.is_available (z : TimeBlockZone) (start duration : Int) : Bool :=
  if duration < z.min_duration then false
  else if start < z.start || start + duration > z.end_ then false
  else (z.get_conflicts start duration).isEmpty

/-- Embeds `ConflictDetector.find_conflicts` in `conflict.py` dispatches on
`isinstance(time_block, TimeBlockZone)`; this sum mirrors the two
possible dynamic types of its `time_block` argument. -/
inductive PyBlock where
  | plain (b : TimeBlock)
  | zone (z : TimeBlockZone)
deriving DecidableEq, Repr

/-- The `start` attribute of either block kind. -/
def PyBlock.startB : PyBlock → Int
  | .plain b => b.start
  | .zone z => z.start

/-- The `end` attribute of either block kind. -/
def PyBlock.endB : PyBlock → Int
  | .plain b => b.end_
  | .zone z => z.end_

/-- The `events` attribute of either block kind. -/
def PyBlock.events : PyBlock → List Event
  | .plain b => b.events
  | .zone z => z.events

/-- Dynamic dispatch of `get_conflicts`. -/
def PyBlock.get_conflicts : PyBlock → Int → Int → List Event
  | .plain b, s, d => b.get_conflicts s d
  | .zone z, s, d => z.get_conflicts s d

/-- Embeds the expression `time_block.buffer_required if isinstance(time_block, TimeBlockZone) else 0`. -/
def PyBlock.zoneBuffer : PyBlock → Int
  | .plain _ => 0
  | .zone z => z.buffer_required

/-- Embeds `SchedulingConflict` from `conflict.py`. -/
structure SchedulingConflict where
  task : Task
  conflicting_events : List Event
  proposed_start : Int
  message : String
deriving DecidableEq, Repr

namespace ConflictDetector

/-- Embeds `ConflictDetector.find_conflicts` from `conflict.py`: direct
overlap, then buffer violation, then (for zones) zone-type,
energy-level and minimum-duration checks, short-circuiting in that
order; `None` when no rule fires.  Differences expressed in
`total_seconds() / 60` are integer minute differences here. -/
def find_conflicts (task : Task) (proposed_start : Int) (time_block : PyBlock) :
    Option SchedulingConflict :=
  let proposed_end := proposed_start + task.duration
  let required_buffer := max task.constraints.required_buffer time_block.zoneBuffer
  let total_duration := task.duration + 2 * required_buffer
  let buffer_start := proposed_start - required_buffer
  let all_conflicts := time_block.get_conflicts buffer_start total_duration
  let direct_conflicts := all_conflicts.filter (fun e =>
    e.start < proposed_end && e.end_ > proposed_start)
  if direct_conflicts ≠ [] then
    some ⟨task, direct_conflicts, proposed_start, "Time slot has conflicting events"⟩
  else
    let buffer_conflicts := all_conflicts.filter (fun e =>
      (e.end_ ≤ proposed_start && proposed_start - e.end_ < required_buffer) ||
      (e.start ≥ proposed_end && e.start - proposed_end < required_buffer))
    if buffer_conflicts ≠ [] then
      some ⟨task, buffer_conflicts, proposed_start,
        "Buffer requirement of " ++ toString required_buffer ++ " minutes not met"⟩
    else
      match time_block with
      | .plain _ => none
      | .zone z =>
        if z.zone_type ≠ task.constraints.zone_type then
          some ⟨task, [], proposed_start, "Task requires matching zone"⟩
        else if z.energy_level ≠ task.constraints.energy_level then
          some ⟨task, [], proposed_start, "Task requires matching energy level"⟩
        else if task.duration < z.min_duration then
          some ⟨task, [], proposed_start,
            "Task duration below zone minimum (" ++ toString z.min_duration ++ " min)"⟩
        else
          none

/-- The scan loop of `find_available_slot`: probe 15-minute steps
until a conflict-free time is found or the window is exhausted.  The
fuel argument only bounds the recursion; `find_available_slot` passes
`(end_time - current).toNat`, which exceeds the number of 15-minute
steps the Python `while` loop performs, so the two agree: fuel can
run out only once `current ≥ end_time`, where the loop returns `None`
anyway. -/
def slotLoop (task : Task) (time_block : PyBlock) (end_time : Int) :
    Nat → Int → Option Int
  | 0, _ => none
  | fuel + 1, current =>
    if current < end_time then
      if find_conflicts task current time_block = none then some current
      else slotLoop task time_block end_time fuel (current + 15)
    else none

/-- Embeds `ConflictDetector.find_available_slot` from `conflict.py`: start
at `max(start_from, block.start)`, move past the latest event ending
at or before that time plus the required buffer, then scan in
15-minute increments up to `min(task.due_date, block.end)`. -/
def find_available_slot (task : Task) (time_block : PyBlock) (start_from : Int) :
    Option Int :=
  let current0 := max start_from time_block.startB
  let end_time := min task.due_date time_block.endB
  let required_buffer := max task.constraints.required_buffer time_block.zoneBuffer
  let all_events := time_block.events
  let current1 :=
    match (all_events.filter (fun e => e.end_ ≤ current0)).argmax (fun e => e.end_) with
    | some last_event_before => max current0 (last_event_before.end_ + required_buffer)
    | none => current0
  slotLoop task time_block end_time (end_time - current1).toNat current1

end ConflictDetector

/-- Embeds `Task.validate` from `task.py`, with `datetime.now()` passed
explicitly as `now`.  It appends, in order: a non-positive-duration
message, a past-due-date message and (for splittable tasks) a
split-infeasibility message; it never throws. -/
def Task.validate (t : Task) (now : Int) : List String :=
  (if t.duration ≤ 0 then ["Task duration must be positive"] else []) ++
  (if t.due_date < now then ["Due date cannot be in the past"] else []) ++
  (if t.constraints.is_splittable then
    let total_min_duration := t.constraints.min_chunk_duration * t.constraints.max_split_count
    if total_min_duration > t.duration then
      ["Total minimum chunk duration (" ++ toString total_min_duration ++
        " min) exceeds task duration (" ++ toString t.duration ++ " min)"]
    else []
  else [])

/-- Embeds `Task.get_minimum_duration` from `task.py`. -/
def Task.get_minimum_duration (t : Task) : Int :=
  if t.constraints.is_splittable then t.constraints.min_chunk_duration else t.duration

/-- One chunk built by `Task.split` for 1-based index `i` of `n`
chunks of size `size`.  Modelled from the spec: the chunk constructor
in `task.py` passes no `sequence_number` (the field is missing from
the `Task` dataclass, see `Task`); the chunk inherits the parent's. -/
def mkChunk (t : Task) (n i : Nat) (size : Int) : Task :=
  { id := t.id ++ "_chunk_" ++ toString i
    title := t.title ++ " (Part " ++ toString i ++ "/" ++ toString n ++ ")"
    duration := size
    due_date := t.due_date
    priority := t.priority
    project_id := t.project_id
    sequence_number := t.sequence_number
    constraints :=
      { zone_type := t.constraints.zone_type
        energy_level := t.constraints.energy_level
        is_splittable := false
        min_chunk_duration := t.constraints.min_chunk_duration
        max_split_count := 1
        required_buffer := t.constraints.required_buffer
        dependencies :=
          if i = 1 then t.constraints.dependencies
          else [t.id ++ "_chunk_" ++ toString (i - 1)] } }

/-- The chunk-construction loop of `Task.split` (`enumerate(chunk_sizes, 1)`),
`i` being the 1-based index of the next chunk. -/
def mkChunks (t : Task) (n : Nat) : Nat → List Int → List Task
  | _, [] => []
  | i, size :: rest => mkChunk t n i size :: mkChunks t n (i + 1) rest

/-- Embeds `Task.split` from `task.py`: rejects, in order, too many chunks,
a wrong total, an undersized chunk, and a non-splittable task; on
success returns the dependency-chained chunks.  `raise ValueError`
is modelled as `Except.error`. -/
def Task.split (t : Task) (chunk_sizes : List Int) : Except String (List Task) :=
  if (chunk_sizes.length : Int) > t.constraints.max_split_count then
    .error ("Exceeds maximum split count of " ++ toString t.constraints.max_split_count)
  else if chunk_sizes.sum ≠ t.duration then
    .error ("Sum of chunk sizes (" ++ toString chunk_sizes.sum ++
      ") must equal task duration (" ++ toString t.duration ++ ")")
  else if chunk_sizes.any (fun size => size < t.constraints.min_chunk_duration) then
    .error ("All chunks must be at least " ++
      toString t.constraints.min_chunk_duration ++ " minutes")
  else if !t.constraints.is_splittable then
    .error "Task is not splittable"
  else
    .ok (mkChunks t chunk_sizes.length 1 chunk_sizes)

/-- Insert `a` into an already sorted list, after every element `b`
with `lt b a`; used to model Python's stable `list.sort`. -/
def insort (lt : α → α → Bool) (a : α) : List α → List α
  | [] => [a]
  | b :: bs => if lt b a then b :: insort lt a bs else a :: b :: bs

/-- Stable insertion sort modelling Python's `list.sort(key=...)` /
`sorted(key=...)`: for a strict weak order `lt`, elements the order
ties are kept in input order. -/
def stableSort (lt : α → α → Bool) : List α → List α
  | [] => []
  | a :: as => insort lt a (stableSort lt as)

/-- The sort key of `SequenceBasedStrategy.schedule`:
lexicographic `(due_date, project_id, sequence_number)` comparison,
Python tuple `<`. -/
def taskLt (a b : Task) : Bool :=
  a.due_date < b.due_date ||
  (a.due_date = b.due_date &&
    (a.project_id < b.project_id ||
      (a.project_id = b.project_id && a.sequence_number < b.sequence_number)))

/-- Embeds `event.id.split("_chunk_")[0]` on character lists: everything
before the first occurrence of the separator. -/
def baseIdAux (sep : List Char) : List Char → List Char
  | [] => []
  | c :: cs => if List.isPrefixOf sep (c :: cs) then [] else c :: baseIdAux sep cs

/-- Embeds `event.id.split("_chunk_")[0]` as used by
`SequenceBasedStrategy._try_schedule_split_task`. -/
def baseId (s : String) : String :=
  String.mk (baseIdAux "_chunk_".toList s.toList)

namespace SequenceBasedStrategy

/-- The `hour` attribute of a minute timestamp. -/
def hourOf (t : Int) : Int := (Int.fdiv t 60).emod 24

/-- The `minute` attribute of a minute timestamp. -/
def minuteOf (t : Int) : Int := t.emod 60

/-- Embeds `dt.replace(hour=h, minute=m)` on minute timestamps. -/
def replaceHM (t h m : Int) : Int := (Int.fdiv t 1440) * 1440 + h * 60 + m

/-- Embeds `SequenceBasedStrategy._create_multi_day_zones`: copy each base
zone to each of `days` consecutive days starting at the first base
zone's date, with fresh empty event lists.  `schedule` guards the
`base_zones[0]` access with its empty-zones early return, so the
empty case here is unreachable from `schedule`. -/
def create_multi_day_zones (base_zones : List TimeBlockZone) (days : Nat) :
    List TimeBlockZone :=
  match base_zones with
  | [] => []
  | z0 :: _ =>
    (List.range days).flatMap (fun day =>
      let day_start := z0.start + 1440 * (day : Int)
      base_zones.map (fun zone =>
        { start := replaceHM day_start (hourOf zone.start) (minuteOf zone.start)
          end_ := replaceHM day_start (hourOf zone.end_) (minuteOf zone.end_)
          zone_type := zone.zone_type
          energy_level := zone.energy_level
          min_duration := zone.min_duration
          buffer_required := zone.buffer_required
          type := TimeBlockType.zone
          events := [] }))

/-- The gap computation between two adjacent events of
`_find_available_slots` (the `for i in range(len(zone_events) - 1)`
loop): a slot opens `buffer_required` minutes after the earlier event
and closes at the later event's start. -/
def middleSlots (min_duration : Int) : List Event → List (Int × Int)
  | a :: b :: rest =>
    (let slot_start := a.end_ + a.buffer_required
     if b.start - slot_start ≥ min_duration then [(slot_start, b.start)] else []) ++
    middleSlots min_duration (b :: rest)
  | _ => []

/-- Embeds `SequenceBasedStrategy._find_available_slots`: events overlapping
the zone, sorted by start (stable), then the gaps before the first
event, between adjacent events (shifted by each event's own
`buffer_required`) and after the last event, kept when at least
`min_duration` long. -/
def find_available_slots (zone : TimeBlockZone) (events : List Event)
    (min_duration : Int) : List (Int × Int) :=
  let zone_events := stableSort (fun a b => a.start < b.start)
    (events.filter (fun e => e.end_ > zone.start && e.start < zone.end_))
  match zone_events with
  | [] =>
    if zone.end_ - zone.start ≥ min_duration then [(zone.start, zone.end_)] else []
  | first :: restEvents =>
    let head_slot :=
      if first.start - zone.start ≥ min_duration then [(zone.start, first.start)] else []
    let last_event := (first :: restEvents).getLastD first
    let final_start := last_event.end_ + last_event.buffer_required
    let final_slot :=
      if zone.end_ - final_start ≥ min_duration then [(final_start, zone.end_)] else []
    head_slot ++ middleSlots min_duration (first :: restEvents) ++ final_slot

/-- Working state of `_try_schedule_split_task`. -/
structure SplitState where
  remaining_duration : Int
  chunk_count : Int
  task_events : List Event
  current_events : List Event
deriving DecidableEq, Repr

/-- The inner slot loop of `_try_schedule_split_task`: stop at the
slots' end or once nothing remains or `max_split_count` chunks exist;
in each slot carve `min(remaining, slot size, 120)` minutes when that
is at least `min_chunk_duration`. -/
def placeChunksInSlots (task : Task) : List (Int × Int) → SplitState → SplitState
  | [], st => st
  | (slot_start, slot_end) :: rest, st =>
    if st.remaining_duration ≤ 0 || st.chunk_count ≥ task.constraints.max_split_count then
      st
    else
      let available_duration := slot_end - slot_start
      let chunk_duration := min (min st.remaining_duration available_duration) 120
      if chunk_duration ≥ task.constraints.min_chunk_duration then
        let ev : Event :=
          { id := task.id ++ "_chunk_" ++ toString (st.chunk_count + 1)
            start := slot_start
            end_ := slot_start + chunk_duration
            title := task.title ++ " (Part " ++ toString (st.chunk_count + 1) ++ ")"
            type := TimeBlockType.managed
            buffer_required := task.constraints.required_buffer }
        placeChunksInSlots task rest
          { remaining_duration := st.remaining_duration - chunk_duration
            chunk_count := st.chunk_count + 1
            task_events := st.task_events ++ [ev]
            current_events := st.current_events ++ [ev] }
      else
        placeChunksInSlots task rest st

/-- The zone loop of `_try_schedule_split_task`: zones in
chronological order, skipping zone-type mismatches (energy level is
not checked on this path), recomputing the open slots from the
events placed so far. -/
def splitZoneLoop (task : Task) : List TimeBlockZone → SplitState → SplitState
  | [], st => st
  | zone :: rest, st =>
    if st.remaining_duration ≤ 0 then st
    else if zone.zone_type ≠ task.constraints.zone_type then splitZoneLoop task rest st
    else
      let slots := find_available_slots zone st.current_events
        task.constraints.min_chunk_duration
      splitZoneLoop task rest (placeChunksInSlots task slots st)

/-- Embeds `SequenceBasedStrategy._try_schedule_split_task`, returning the
chunk events on success (the Python method appends them to `events`
and returns `True`; the caller below performs the append). -/
def try_schedule_split_task (task : Task) (zones : List TimeBlockZone)
    (events : List Event) : Option (List Event) :=
  let sorted_zones := stableSort (fun a b : TimeBlockZone => a.start < b.start) zones
  let st := splitZoneLoop task sorted_zones
    { remaining_duration := task.duration, chunk_count := 0
      task_events := [], current_events := events }
  if st.remaining_duration ≤ 0 then some st.task_events else none

/-- Embeds `SequenceBasedStrategy._try_schedule_task`, returning the placed
event on success: first type-matching zone where
`max(zone.start, last_event.end + max(task buffer, last event buffer))`
leaves room before `zone.end` and `ConflictDetector.find_conflicts`
is `None`. -/
def try_schedule_task (task : Task) : List TimeBlockZone → List Event → Option Event
  | [], _ => none
  | zone :: rest, events =>
    if zone.zone_type ≠ task.constraints.zone_type then
      try_schedule_task task rest events
    else
      let current_time :=
        match events.getLast? with
        | some last_event =>
          let required_buffer :=
            max task.constraints.required_buffer last_event.buffer_required
          max zone.start (last_event.end_ + required_buffer)
        | none => zone.start
      if current_time + task.duration ≤ zone.end_ then
        match ConflictDetector.find_conflicts task current_time (.zone zone) with
        | none =>
          some { id := task.id
                 start := current_time
                 end_ := current_time + task.duration
                 title := task.title
                 type := TimeBlockType.managed
                 buffer_required := task.constraints.required_buffer }
        | some _ => try_schedule_task task rest events
      else
        try_schedule_task task rest events

/-- One selection step of `schedule`: filter `remaining` to the tasks
whose dependencies are all in `scheduled_ids`, stable-sort by
`(due_date, project_id, sequence_number)` and take the head. -/
def selectTask (remaining : List Task) (scheduled_ids : List String) : Option Task :=
  let available := remaining.filter
    (fun t => t.constraints.dependencies.all (fun d => scheduled_ids.contains d))
  (stableSort taskLt available).head?

/-- The `while remaining_tasks` loop of
`SequenceBasedStrategy.schedule`.  Each successful iteration removes
the selected task, so `tasks.length` fuel is enough; an empty
`available` list (deadlock) or a placement failure breaks the loop. -/
def scheduleLoop (all_zones : List TimeBlockZone) :
    Nat → List Task → List Event → List String → List Event × List String
  | 0, _, events, ids => (events, ids)
  | fuel + 1, remaining, events, ids =>
    match selectTask remaining ids with
    | none => (events, ids)
    | some task =>
      if task.constraints.is_splittable then
        match try_schedule_split_task task all_zones events with
        | some task_events =>
          scheduleLoop all_zones fuel (remaining.erase task) (events ++ task_events)
            (ids ++ task_events.map (fun e => baseId e.id))
        | none => (events, ids)
      else
        match try_schedule_task task all_zones events with
        | some ev =>
          scheduleLoop all_zones fuel (remaining.erase task) (events ++ [ev])
            (ids ++ [task.id])
        | none => (events, ids)

/-- Embeds `SequenceBasedStrategy.schedule`: empty-zone early return;
otherwise expand the zone templates over a 7-day horizon, run the
scheduling loop from the existing events, and return only MANAGED
events. -/
def schedule (tasks : List Task) (zones : List TimeBlockZone)
    (existing_events : List Event) : List Event :=
  if zones.isEmpty then []
  else
    let all_zones := create_multi_day_zones zones 7
    let result := scheduleLoop all_zones tasks.length tasks existing_events []
    result.1.filter (fun e => e.type == TimeBlockType.managed)

end SequenceBasedStrategy

/-- The repositories seen by `Scheduler` (`TaskRepository` and
`CalendarRepository` in `scheduler.py`), modelled as one state record:
the stored tasks, the persisted calendar events, and the zone
templates the calendar side holds (`get_zones` per spec §6). -/
structure RepoState where
  tasks : List Task
  calendar : List Event
  zones : List TimeBlockZone
deriving DecidableEq, Repr

/-- Modelled from the spec: §6 requires `CalendarRepository.get_events`
to return the FIXED events of the requested window; the concrete
adapters in `infrastructure/adapters.py` are unimplemented stubs. -/
def RepoState.get_events (st : RepoState) (start end_ : Int) : List Event :=
  st.calendar.filter (fun e =>
    e.type == TimeBlockType.fixed && e.start < end_ && e.end_ > start)

/-- Embeds `CalendarRepository.remove_managed_events` acting on the state. -/
def RepoState.remove_managed_events (st : RepoState) : RepoState :=
  { st with calendar := st.calendar.filter (fun e => e.type ≠ TimeBlockType.managed) }

/-- The hardcoded zone built inside `Scheduler.schedule_tasks`
("Create default zone if none provided" — it is in fact always used;
`get_zones` is never called). -/
def defaultZone (start : Int) : TimeBlockZone :=
  { start := start
    end_ := start + 4 * 60
    zone_type := ZoneType.deep
    energy_level := EnergyLevel.high
    min_duration := 30
    buffer_required := 15
    type := TimeBlockType.zone
    events := [] }

/-- Embeds `Scheduler.schedule_tasks` from `scheduler.py` with
`SequenceBasedStrategy` as the strategy and `datetime.now()` passed
as `now`: fetch tasks (early return on none), fetch the existing
events for `[now.replace(hour=9, minute=0), +horizon days)`, build
the hardcoded default zone, run the strategy, then delete persisted
MANAGED events and persist the strategy output.  Returns the new
repository state and the returned events. -/
def schedule_tasks (st : RepoState) (now : Int) (planning_horizon : Nat := 7) :
    RepoState × List Event :=
  if st.tasks.isEmpty then (st, [])
  else
    let start := SequenceBasedStrategy.replaceHM now 9 0
    let end_ := start + 1440 * (planning_horizon : Int)
    let existing_events := st.get_events start end_
    let zones := [defaultZone start]
    let scheduled_events := SequenceBasedStrategy.schedule st.tasks zones existing_events
    let st' := st.remove_managed_events
    ({ st' with calendar := st'.calendar ++ scheduled_events }, scheduled_events)

/-- Modelled from the spec: the full-reschedule pass claim C8 describes
— identical to `schedule_tasks` except that the zone templates come
from the calendar repository (`get_zones`, spec §4.5/§6) instead of
the hardcoded default zone.  Used to compare the spec's description
with the code. -/
def claimed_schedule_tasks (st : RepoState) (now : Int) (planning_horizon : Nat := 7) :
    RepoState × List Event :=
  if st.tasks.isEmpty then (st, [])
  else
    let start := SequenceBasedStrategy.replaceHM now 9 0
    let end_ := start + 1440 * (planning_horizon : Int)
    let existing_events := st.get_events start end_
    let scheduled_events := SequenceBasedStrategy.schedule st.tasks st.zones existing_events
    let st' := st.remove_managed_events
    ({ st' with calendar := st'.calendar ++ scheduled_events }, scheduled_events)

/-- One step of the dependent-closure iteration: add every task one of
whose dependencies is already in the closure. -/
def closureStep (tasks : List Task) (closure : List String) : List String :=
  closure ++ (tasks.filter (fun t =>
    !(closure.contains t.id) &&
    t.constraints.dependencies.any (fun d => closure.contains d))).map Task.id

/-- Modelled from the spec: the transitive-dependent closure of the
affected task ids (spec §4.5/§9, "affected tasks and their transitive
dependents"); iterated once per task, which reaches the fixpoint. -/
def dependentClosure (tasks : List Task) (affected : List String) : List String :=
  Nat.rec affected (fun _ acc => closureStep tasks acc) tasks.length

/-- Modelled from the spec: `Scheduler.reschedule` is absent from
`src/domain/scheduler.py` (only the tests call it).  Spec §4.5:
with `affected_task_ids` given, only the affected tasks and their
transitive dependents are re-planned; every other previously
scheduled MANAGED event is kept as is, and the strategy plans the
closure tasks around the fixed events and the kept events. -/
def reschedule (st : RepoState) (tasks : List Task)
    (affected_task_ids : Option (List String)) : List Event :=
  match affected_task_ids with
  | none => SequenceBasedStrategy.schedule tasks st.zones
      (st.calendar.filter (fun e => e.type == TimeBlockType.fixed))
  | some affected =>
    let closure := dependentClosure tasks affected
    let kept := st.calendar.filter (fun e =>
      e.type == TimeBlockType.managed && !(closure.contains (baseId e.id)))
    let fixed := st.calendar.filter (fun e => e.type == TimeBlockType.fixed)
    let replanned := SequenceBasedStrategy.schedule
      (tasks.filter (fun t => closure.contains t.id)) st.zones (fixed ++ kept)
    kept ++ replanned

/-- Two events overlap as half-open intervals `[start, end)`
(the overlap test of `get_conflicts`). -/
def eventsOverlap (a b : Event) : Prop :=
  a.start < b.end_ ∧ b.start < a.end_

instance (a b : Event) : Decidable (eventsOverlap a b) := by
  unfold eventsOverlap; infer_instance

/-- An event list is separated when it is chronological in list order
with each event ending no later than the next starts, and every event
is non-degenerate (`start ≤ end`). -/
def SeparatedEvents (l : List Event) : Prop :=
  l.Pairwise (fun a b => a.end_ ≤ b.start) ∧ ∀ e ∈ l, e.start ≤ e.end_

/-- What the chunk-placement path actually guarantees for a produced
chunk event: a MANAGED event carrying the task's buffer, at least
`min_chunk_duration` long, inside some zone of matching `zone_type`
(energy level and `zone.min_duration` are not checked on this path). -/
def GoodChunkIn (task : Task) (zones : List TimeBlockZone) (E : Event) : Prop :=
  E.type = TimeBlockType.managed ∧
  E.buffer_required = task.constraints.required_buffer ∧
  task.constraints.min_chunk_duration ≤ E.end_ - E.start ∧
  ∃ zone ∈ zones, zone.zone_type = task.constraints.zone_type ∧
    zone.start ≤ E.start ∧ E.end_ ≤ zone.end_

/-- Modelled from the spec: the validity condition claim C5 ascribes
to `Task.validate` (duration positive, due date in the future, title
non-empty, priority positive, split feasibility). -/
def specValidOK (t : Task) (now : Int) : Prop :=
  0 < t.duration ∧ now < t.due_date ∧ t.title ≠ "" ∧ 0 < t.priority ∧
    (t.constraints.is_splittable = true →
      t.constraints.min_chunk_duration * t.constraints.max_split_count ≤ t.duration)

section CounterexampleData

/-- Non-splittable DEEP/HIGH 60-minute task used in concrete runs. -/
def cexTask : Task :=
  { id := "t1", title := "T1", duration := 60, due_date := 100000, priority := 1,
    project_id := "p", sequence_number := 1,
    constraints := { zone_type := .deep, energy_level := .high, is_splittable := false,
                     min_chunk_duration := 30, max_split_count := 1, required_buffer := 0,
                     dependencies := [] } }

/-- DEEP/HIGH 9:00–13:00 zone template used in concrete runs. -/
def cexZone : TimeBlockZone :=
  { start := 540, end_ := 780, zone_type := .deep, energy_level := .high,
    min_duration := 30, buffer_required := 0 }

/-- Fixed event 10:00–11:00, listed first. -/
def cexFixedLate : Event :=
  { id := "f1", start := 600, end_ := 660, title := "F1", type := .fixed,
    buffer_required := 0 }

/-- Fixed event 9:00–9:30, listed last (out of chronological order). -/
def cexFixedEarly : Event :=
  { id := "f2", start := 540, end_ := 570, title := "F2", type := .fixed,
    buffer_required := 0 }

/-- The MANAGED event the strategy produces for `cexTask` against
`[cexFixedLate, cexFixedEarly]`. -/
def cexPlaced : Event :=
  { id := "t1", start := 570, end_ := 630, title := "T1", type := .managed,
    buffer_required := 0 }

/-- Splittable DEEP/HIGH task (buffer 20) used for the chunk-path run. -/
def cexSplitTask : Task :=
  { id := "s1", title := "S1", duration := 90, due_date := 100000, priority := 1,
    project_id := "p", sequence_number := 1,
    constraints := { zone_type := .deep, energy_level := .high, is_splittable := true,
                     min_chunk_duration := 30, max_split_count := 4, required_buffer := 20,
                     dependencies := [] } }

/-- DEEP/LOW zone (min_duration 200) used for the chunk-path run. -/
def cexLowZone : TimeBlockZone :=
  { start := 540, end_ := 780, zone_type := .deep, energy_level := .low,
    min_duration := 200, buffer_required := 0 }

/-- Fixed event 10:00–11:00 inside `cexLowZone`. -/
def cexFixedMid : Event :=
  { id := "fx", start := 600, end_ := 660, title := "FX", type := .fixed,
    buffer_required := 0 }

/-- First chunk produced for `cexSplitTask`: fills 9:00–10:00, ending
exactly at the fixed event's start. -/
def cexChunk1 : Event :=
  { id := "s1_chunk_1", start := 540, end_ := 600, title := "S1 (Part 1)",
    type := .managed, buffer_required := 20 }

/-- Second chunk produced for `cexSplitTask`: 11:00–11:30. -/
def cexChunk2 : Event :=
  { id := "s1_chunk_2", start := 660, end_ := 690, title := "S1 (Part 2)",
    type := .managed, buffer_required := 20 }

/-- Task with no buffer of its own, used against a predecessor that
carries `buffer_required = 30`. -/
def cexBufTask : Task :=
  { id := "t3", title := "T3", duration := 30, due_date := 100000, priority := 1,
    project_id := "p", sequence_number := 1,
    constraints := { zone_type := .deep, energy_level := .high, is_splittable := false,
                     min_chunk_duration := 30, max_split_count := 1, required_buffer := 0,
                     dependencies := [] } }

/-- Predecessor event 0:00–1:00 with `buffer_required = 30`. -/
def cexBufEvent : Event :=
  { id := "p3", start := 0, end_ := 60, title := "P", type := .fixed,
    buffer_required := 30 }

/-- Zone containing `cexBufEvent`, itself requiring no buffer. -/
def cexBufZone : TimeBlockZone :=
  { start := 0, end_ := 480, zone_type := .deep, energy_level := .high,
    min_duration := 30, buffer_required := 0, events := [cexBufEvent] }

/-- Task with a 20-minute buffer of its own, placed well clear of
`cexBufEvent`. -/
def cexWitTask : Task :=
  { id := "t4", title := "T4", duration := 30, due_date := 100000, priority := 1,
    project_id := "p", sequence_number := 1,
    constraints := { zone_type := .deep, energy_level := .high, is_splittable := false,
                     min_chunk_duration := 30, max_split_count := 1, required_buffer := 20,
                     dependencies := [] } }

/-- Task whose due date precedes the zone, leaving an empty scan
window. -/
def cexPastTask : Task :=
  { id := "t6", title := "T6", duration := 30, due_date := 0, priority := 1,
    project_id := "p", sequence_number := 1,
    constraints := { zone_type := .deep, energy_level := .high, is_splittable := false,
                     min_chunk_duration := 30, max_split_count := 1, required_buffer := 0,
                     dependencies := [] } }

/-- Task with empty title and priority 0 but positive duration and a
future due date. -/
def cexUntitledTask : Task :=
  { id := "t5", title := "", duration := 30, due_date := 100, priority := 0,
    project_id := "p", sequence_number := 1,
    constraints := { zone_type := .deep, energy_level := .high, is_splittable := false,
                     min_chunk_duration := 30, max_split_count := 1, required_buffer := 0,
                     dependencies := [] } }

/-- LIGHT/MEDIUM task that fits only a repository zone template. -/
def cexLightTask : Task :=
  { id := "t8", title := "T8", duration := 60, due_date := 100000, priority := 1,
    project_id := "p", sequence_number := 1,
    constraints := { zone_type := .light, energy_level := .medium, is_splittable := false,
                     min_chunk_duration := 30, max_split_count := 1, required_buffer := 0,
                     dependencies := [] } }

/-- LIGHT/MEDIUM zone template held by the calendar repository. -/
def cexLightZone : TimeBlockZone :=
  { start := 540, end_ := 780, zone_type := .light, energy_level := .medium,
    min_duration := 30, buffer_required := 0 }

/-- Repository state whose zone templates `schedule_tasks` ignores. -/
def cexRepoState : RepoState :=
  { tasks := [cexLightTask], calendar := [], zones := [cexLightZone] }

/-- The chunks `cexSplitTask.split [30, 30, 30]` produces. -/
def demoChunks : List Task :=
  (cexSplitTask.split [30, 30, 30]).toOption.getD []

/-- Previously scheduled MANAGED event of a task unrelated to the
affected set of an incremental reschedule. -/
def cexKeptEvent : Event :=
  { id := "keep", start := 540, end_ := 600, title := "K", type := .managed,
    buffer_required := 0 }

/-- Repository state for the incremental-reschedule run. -/
def cexIncRepoState : RepoState :=
  { tasks := [], calendar := [cexKeptEvent], zones := [cexZone] }

end CounterexampleData

/-! ## Task model: validation and splitting (claims C5, C6, C10) -/

/-- Claim C5 (amended): `Task.validate` returns `[]` iff the duration
is positive, the due date is not in the past, and, when the task is
splittable, `min_chunk_duration × max_split_count ≤ duration`.  Title
and priority are not inspected; the function is total (never
throws). -/
theorem C5_validate_iff (t : Task) (now : Int) :
    t.validate now = [] ↔
      0 < t.duration ∧ now ≤ t.due_date ∧
        (t.constraints.is_splittable = true →
          t.constraints.min_chunk_duration * t.constraints.max_split_count ≤ t.duration) := by
  unfold Task.validate
  split_ifs with h1 h2 h3 h4 <;> simp_all

/-- Claim C5 counterexample: a task with empty title and priority 0
(otherwise valid) for which `validate` returns `[]`, contradicting
the claimed equivalence with title/priority checks. -/
theorem C5_cex_title_priority_unchecked :
    cexUntitledTask.validate 50 = [] ∧ ¬ specValidOK cexUntitledTask 50 := by
  constructor
  · decide
  · intro h
    exact absurd h.2.2.2.1 (by decide)

/-- Lengths of the chunk list built by `Task.split`. -/
theorem mkChunks_length (t : Task) (n : Nat) :
    ∀ i sizes, (mkChunks t n i sizes).length = sizes.length := by
  intro i sizes
  induction sizes generalizing i with
  | nil => rfl
  | cons s rest ih => simp [mkChunks, ih]

/-- The chunk durations are exactly the requested sizes. -/
theorem mkChunks_map_duration (t : Task) (n : Nat) :
    ∀ i sizes, (mkChunks t n i sizes).map Task.duration = sizes := by
  intro i sizes
  induction sizes generalizing i with
  | nil => rfl
  | cons s rest ih => simp [mkChunks, mkChunk, ih]

/-- Every chunk is non-splittable with `max_split_count = 1`. -/
theorem mkChunks_not_splittable (t : Task) (n : Nat) :
    ∀ i sizes c, c ∈ mkChunks t n i sizes →
      c.constraints.is_splittable = false ∧ c.constraints.max_split_count = 1 := by
  intro i sizes
  induction sizes generalizing i with
  | nil => intro c hc; cases hc
  | cons s rest ih =>
    intro c hc
    rcases List.mem_cons.mp hc with hc | hc
    · subst hc; exact ⟨rfl, rfl⟩
    · exact ih (i + 1) c hc

/-- The `j`-th chunk (0-based) is `mkChunk` at 1-based index `i + j`. -/
theorem mkChunks_get (t : Task) (n : Nat) :
    ∀ sizes i j (hj : j < (mkChunks t n i sizes).length),
      (mkChunks t n i sizes).get ⟨j, hj⟩ =
        mkChunk t n (i + j) (sizes.get ⟨j, by rwa [← mkChunks_length t n i sizes]⟩) := by
  intro sizes
  induction sizes with
  | nil => intro i j hj; simp [mkChunks] at hj
  | cons s rest ih =>
    intro i j hj
    cases j with
    | zero => simp [mkChunks]
    | succ j' =>
      have hj' : j' < (mkChunks t n (i + 1) rest).length := by
        simpa [mkChunks] using Nat.lt_of_succ_lt_succ hj
      have := ih (i + 1) j' hj'
      simp only [mkChunks, List.get_cons_succ, List.get]
      rw [show i + (j' + 1) = (i + 1) + j' by omega] at *
      simpa using this

/-- Inversion of a successful `Task.split`. -/
theorem split_ok_inv (t : Task) (sizes : List Int) (chunks : List Task)
    (h : t.split sizes = .ok chunks) :
    sizes.sum = t.duration ∧ chunks = mkChunks t sizes.length 1 sizes := by
  unfold Task.split at h
  split_ifs at h with h1 h2 h3 h4
  · exact ⟨by omega, by injection h with h; exact h.symm⟩

/-- Claim C6: for every accepted `chunk_sizes`, the chunks' durations
sum to the task's duration, every chunk is non-splittable with
`max_split_count = 1`, chunk 1 (index 0) inherits the parent's
dependencies, and chunk `i > 1` depends exactly on
`parent.id ++ "_chunk_" ++ (i-1)`. -/
theorem C6_split_chunks (t : Task) (sizes : List Int) (chunks : List Task)
    (h : t.split sizes = .ok chunks) :
    (chunks.map Task.duration).sum = t.duration ∧
    chunks.length = sizes.length ∧
    (∀ c ∈ chunks, c.constraints.is_splittable = false ∧
      c.constraints.max_split_count = 1) ∧
    (∀ j (hj : j < chunks.length),
      (chunks.get ⟨j, hj⟩).constraints.dependencies =
        if j = 0 then t.constraints.dependencies
        else [t.id ++ "_chunk_" ++ toString j]) := by
  obtain ⟨hsum, hchunks⟩ := split_ok_inv t sizes chunks h
  subst hchunks
  refine ⟨?_, mkChunks_length t sizes.length 1 sizes, ?_, ?_⟩
  · rw [mkChunks_map_duration, hsum]
  · intro c hc
    exact mkChunks_not_splittable t sizes.length 1 sizes c hc
  · intro j hj
    rw [mkChunks_get t sizes.length sizes 1 j hj]
    cases j with
    | zero => simp [mkChunk]
    | succ j' => simp [mkChunk, Nat.add_comm 1 (j' + 1)]

/-- Claim C6 witness: splitting the demo task into three 30-minute
chunks realises the conclusion at a concrete input. -/
theorem C6_witness :
    (demoChunks.map Task.duration).sum = cexSplitTask.duration ∧
    demoChunks.length = ([30, 30, 30] : List Int).length ∧
    (∀ c ∈ demoChunks, c.constraints.is_splittable = false ∧
      c.constraints.max_split_count = 1) ∧
    (∀ j (hj : j < demoChunks.length),
      (demoChunks.get ⟨j, hj⟩).constraints.dependencies =
        if j = 0 then cexSplitTask.constraints.dependencies
        else [cexSplitTask.id ++ "_chunk_" ++ toString j]) :=
  C6_split_chunks cexSplitTask [30, 30, 30] demoChunks rfl

/-- Claim C10: `Task.split` either fails or returns exactly
`chunk_sizes.length` chunks (the embedding is a pure function, so the
input task is unchanged in both cases), and the rejection rules are
evaluated in the fixed order: chunk-count overflow, wrong sum,
undersized chunk, non-splittable — an earlier rule's error wins even
when a later rule is also violated. -/
theorem C10_split_error_order (t : Task) (sizes : List Int) :
    ((∃ msg, t.split sizes = .error msg) ∨
      (∃ chunks, t.split sizes = .ok chunks ∧ chunks.length = sizes.length)) ∧
    ((sizes.length : Int) > t.constraints.max_split_count →
      t.split sizes = .error
        ("Exceeds maximum split count of " ++ toString t.constraints.max_split_count)) ∧
    (¬ (sizes.length : Int) > t.constraints.max_split_count →
      sizes.sum ≠ t.duration →
      t.split sizes = .error
        ("Sum of chunk sizes (" ++ toString sizes.sum ++
          ") must equal task duration (" ++ toString t.duration ++ ")")) ∧
    (¬ (sizes.length : Int) > t.constraints.max_split_count →
      sizes.sum = t.duration →
      sizes.any (fun size => size < t.constraints.min_chunk_duration) = true →
      t.split sizes = .error
        ("All chunks must be at least " ++
          toString t.constraints.min_chunk_duration ++ " minutes")) ∧
    (¬ (sizes.length : Int) > t.constraints.max_split_count →
      sizes.sum = t.duration →
      sizes.any (fun size => size < t.constraints.min_chunk_duration) = false →
      t.constraints.is_splittable = false →
      t.split sizes = .error "Task is not splittable") := by
  unfold Task.split
  refine ⟨?_, ?_, ?_, ?_, ?_⟩ <;>
    split_ifs with h1 h2 h3 h4 <;> simp_all [mkChunks_length]

/-- Claim C10 witness: a non-splittable task whose `chunk_sizes` also
exceed `max_split_count` is rejected with the chunk-count error, the
earlier rule in the fixed order. -/
theorem C10_witness :
    ({ cexSplitTask with
        constraints := { cexSplitTask.constraints with
          is_splittable := false, max_split_count := 2 } } : Task).split
      [30, 30, 30, 30] = .error "Exceeds maximum split count of 2" :=
  (C10_split_error_order _ [30, 30, 30, 30]).2.1 (by decide)

/-! ## The stable sort and task selection (claim C4) -/

/-- Membership through `insort`. -/
theorem mem_insort (lt : α → α → Bool) (a x : α) :
    ∀ l, x ∈ insort lt a l ↔ x = a ∨ x ∈ l := by
  intro l
  induction l with
  | nil => simp [insort]
  | cons b bs ih =>
    by_cases h : lt b a = true
    · simp only [insort, h, if_true, List.mem_cons, ih]
      tauto
    · simp only [insort, h, if_false, Bool.false_eq_true, List.mem_cons]

/-- Membership through `stableSort`. -/
theorem mem_stableSort (lt : α → α → Bool) (x : α) :
    ∀ l, x ∈ stableSort lt l ↔ x ∈ l := by
  intro l
  induction l with
  | nil => simp [stableSort]
  | cons a as ih => simp [stableSort, mem_insort, ih]

/-- Head of the stable sort of a non-empty list: it is a minimal
element of the list under `lt`, and it is the first such element —
everything listed before it is strictly greater.  `lt` is assumed to
be a strict weak order (asymmetric, with the comparability
property). -/
theorem stableSort_head_spec (lt : α → α → Bool)
    (asymm : ∀ a b, lt a b = true → lt b a = false)
    (comp : ∀ a b c, lt a c = true → lt a b = true ∨ lt b c = true) :
    ∀ l : List α, l ≠ [] → ∃ h pre post,
      (stableSort lt l).head? = some h ∧ l = pre ++ h :: post ∧
      (∀ u ∈ l, lt u h = false) ∧ (∀ u ∈ pre, lt h u = true) := by
  have irrefl : ∀ a, lt a a = false := by
    intro a
    by_cases h : lt a a = true
    · exact absurd (asymm a a h) (by simp [h])
    · simpa using h
  intro l
  induction l with
  | nil => intro h; exact absurd rfl h
  | cons a as ih =>
    intro _
    cases has : as with
    | nil =>
      refine ⟨a, [], [], ?_, by simp, ?_, by simp⟩
      · simp [stableSort, insort]
      · intro u hu
        rcases List.mem_singleton.mp hu with rfl
        exact irrefl u
    | cons b bs =>
      rw [← has]
      obtain ⟨h', pre', post', hhead, hdecomp, hmin, hpre⟩ :=
        ih (by simp [has])
      obtain ⟨tl, htl⟩ : ∃ tl, stableSort lt as = h' :: tl := by
        cases hs : stableSort lt as with
        | nil => rw [hs] at hhead; cases hhead
        | cons x xs =>
          rw [hs] at hhead
          injection hhead with hx
          exact ⟨xs, by rw [hx]⟩
      by_cases hcase : lt h' a = true
      · refine ⟨h', a :: pre', post', ?_, by simp [hdecomp], ?_, ?_⟩
        · simp [stableSort, htl, insort, hcase]
        · intro u hu
          rcases List.mem_cons.mp hu with rfl | hu
          · exact asymm h' u hcase
          · exact hmin u hu
        · intro u hu
          rcases List.mem_cons.mp hu with rfl | hu
          · exact hcase
          · exact hpre u hu
      · have hcase' : lt h' a = false := by simpa using hcase
        refine ⟨a, [], as, ?_, by simp, ?_, by simp⟩
        · simp [stableSort, htl, insort, hcase']
        · intro u hu
          rcases List.mem_cons.mp hu with rfl | hu
          · exact irrefl u
          · by_cases hua : lt u a = true
            · rcases comp u h' a hua with huh | hha
              · exact absurd (hmin u hu) (by simp [huh])
              · exact absurd hha (by simp [hcase'])
            · simpa using hua

/-- Propositional reading of the Python tuple comparison `taskLt`. -/
theorem taskLt_iff (a b : Task) :
    taskLt a b = true ↔
      a.due_date < b.due_date ∨
        (a.due_date = b.due_date ∧
          (a.project_id < b.project_id ∨
            (a.project_id = b.project_id ∧ a.sequence_number < b.sequence_number))) := by
  simp [taskLt]

/-- The relation `taskLt` is asymmetric. -/
theorem taskLt_asymm (a b : Task) (h : taskLt a b = true) : taskLt b a = false := by
  rw [taskLt_iff] at h
  rw [Bool.eq_false_iff, Ne, taskLt_iff]
  intro hba
  rcases h with h | ⟨hd, h | ⟨hp, hs⟩⟩ <;>
    rcases hba with hba | ⟨hbd, hba | ⟨hbp, hbs⟩⟩ <;>
    first
      | omega
      | exact absurd hba (lt_asymm h)
      | exact absurd h (by rw [hbp]; exact lt_irrefl _)
      | exact absurd hba (by rw [hp]; exact lt_irrefl _)

/-- The relation `taskLt` satisfies the strict-weak-order comparability property. -/
theorem taskLt_comp (a b c : Task) (h : taskLt a c = true) :
    taskLt a b = true ∨ taskLt b c = true := by
  rw [taskLt_iff] at h
  rw [taskLt_iff, taskLt_iff]
  rcases h with h | ⟨hd, h | ⟨hp, hs⟩⟩
  · rcases lt_trichotomy a.due_date b.due_date with h1 | h1 | h1
    · exact Or.inl (Or.inl h1)
    · exact Or.inr (Or.inl (by omega))
    · exact Or.inr (Or.inl (by omega))
  · rcases lt_trichotomy a.due_date b.due_date with h1 | h1 | h1
    · exact Or.inl (Or.inl h1)
    · rcases lt_trichotomy a.project_id b.project_id with h2 | h2 | h2
      · exact Or.inl (Or.inr ⟨h1, Or.inl h2⟩)
      · exact Or.inr (Or.inr ⟨by omega, Or.inl (h2 ▸ h)⟩)
      · exact Or.inr (Or.inr ⟨by omega, Or.inl (lt_trans h2 h)⟩)
    · exact Or.inr (Or.inl (by omega))
  · rcases lt_trichotomy a.due_date b.due_date with h1 | h1 | h1
    · exact Or.inl (Or.inl h1)
    · rcases lt_trichotomy a.project_id b.project_id with h2 | h2 | h2
      · exact Or.inl (Or.inr ⟨h1, Or.inl h2⟩)
      · rcases lt_trichotomy a.sequence_number b.sequence_number with h3 | h3 | h3
        · exact Or.inl (Or.inr ⟨h1, Or.inr ⟨h2, h3⟩⟩)
        · exact Or.inr (Or.inr ⟨by omega, Or.inr ⟨by rw [← h2, hp], by omega⟩⟩)
        · exact Or.inr (Or.inr ⟨by omega, Or.inr ⟨by rw [← h2, hp], by omega⟩⟩)
      · exact Or.inr (Or.inr ⟨by omega, Or.inl (hp ▸ h2)⟩)
    · exact Or.inr (Or.inl (by omega))

/-- Claim C4: whenever the `available` list (tasks whose dependencies
are all scheduled) is non-empty, the selection step of
`SequenceBasedStrategy.schedule` is well-defined and picks the first
element attaining the minimal `(due_date, project_id,
sequence_number)` key: no available task compares strictly below the
pick, and every available task listed before the pick compares
strictly above it (the stable-sort tie-break by input order). -/
theorem C4_selection_minimal (remaining : List Task) (ids : List String)
    (hne : remaining.filter
      (fun t => t.constraints.dependencies.all (fun d => ids.contains d)) ≠ []) :
    ∃ h pre post,
      SequenceBasedStrategy.selectTask remaining ids = some h ∧
      remaining.filter
        (fun t => t.constraints.dependencies.all (fun d => ids.contains d)) =
        pre ++ h :: post ∧
      (∀ u ∈ remaining.filter
        (fun t => t.constraints.dependencies.all (fun d => ids.contains d)),
        taskLt u h = false) ∧
      (∀ u ∈ pre, taskLt h u = true) := by
  obtain ⟨h, pre, post, hhead, hdecomp, hmin, hpre⟩ :=
    stableSort_head_spec taskLt taskLt_asymm taskLt_comp _ hne
  exact ⟨h, pre, post, hhead, hdecomp, hmin, hpre⟩

/-- Claim C4 witness: concrete selection among two available tasks
with distinct due dates. -/
theorem C4_witness :
    ∃ h pre post,
      SequenceBasedStrategy.selectTask [cexTask, cexBufTask] [] = some h ∧
      [cexTask, cexBufTask].filter
        (fun t => t.constraints.dependencies.all (fun d => ([] : List String).contains d)) =
        pre ++ h :: post ∧
      (∀ u ∈ [cexTask, cexBufTask].filter
        (fun t => t.constraints.dependencies.all (fun d => ([] : List String).contains d)),
        taskLt u h = false) ∧
      (∀ u ∈ pre, taskLt h u = true) :=
  C4_selection_minimal [cexTask, cexBufTask] [] (by decide)

/-! ## Conflict-detector inversion lemmas (claims C2, C3, C7) -/

/-- An event of the zone overlapping the probe interval is reported
by `TimeBlockZone.get_conflicts`. -/
theorem mem_zone_get_conflicts (z : TimeBlockZone) (s d : Int) (e : Event)
    (he : e ∈ z.events) (h1 : s < e.end_) (h2 : s + d > e.start) :
    e ∈ z.get_conflicts s d := by
  unfold TimeBlockZone.get_conflicts
  have hmem : e ∈ z.events.filter (fun ev => s < ev.end_ && s + d > ev.start) :=
    List.mem_filter.mpr ⟨he, by simp only [Bool.and_eq_true, decide_eq_true_eq]; exact ⟨h1, h2⟩⟩
  split_ifs with hz
  · exact List.mem_append_left _ hmem
  · exact hmem

/-- Inversion of `ConflictDetector.find_conflicts = none` on a zone:
no reported event overlaps the placement directly, no reported event
sits within the enforced buffer `max(task.required_buffer,
zone.buffer_required)` on either side, and the zone checks pass. -/
theorem find_conflicts_none_inv (task : Task) (t : Int) (z : TimeBlockZone)
    (hnone : ConflictDetector.find_conflicts task t (.zone z) = none) :
    (∀ e ∈ z.get_conflicts
        (t - max task.constraints.required_buffer z.buffer_required)
        (task.duration + 2 * max task.constraints.required_buffer z.buffer_required),
      ¬ (e.start < t + task.duration ∧ e.end_ > t)) ∧
    (∀ e ∈ z.get_conflicts
        (t - max task.constraints.required_buffer z.buffer_required)
        (task.duration + 2 * max task.constraints.required_buffer z.buffer_required),
      ¬ ((e.end_ ≤ t ∧
            t - e.end_ < max task.constraints.required_buffer z.buffer_required) ∨
          (e.start ≥ t + task.duration ∧
            e.start - (t + task.duration) <
              max task.constraints.required_buffer z.buffer_required))) ∧
    z.zone_type = task.constraints.zone_type ∧
    z.energy_level = task.constraints.energy_level ∧
    z.min_duration ≤ task.duration := by
  unfold ConflictDetector.find_conflicts at hnone
  simp only [PyBlock.zoneBuffer, PyBlock.get_conflicts] at hnone
  split_ifs at hnone with h1 h2 h3 h4 h5
  · push_neg at h1 h2 h3 h4
    refine ⟨?_, ?_, h3, h4, by omega⟩
    · intro e he hcond
      have : e ∈ List.filter
          (fun e => e.start < t + task.duration && e.end_ > t)
          (z.get_conflicts
            (t - max task.constraints.required_buffer z.buffer_required)
            (task.duration + 2 * max task.constraints.required_buffer z.buffer_required)) :=
        List.mem_filter.mpr ⟨he, by
          simp only [Bool.and_eq_true, decide_eq_true_eq]; exact hcond⟩
      rw [h1] at this
      cases this
    · intro e he hcond
      have : e ∈ List.filter
          (fun e =>
            (e.end_ ≤ t &&
              t - e.end_ < max task.constraints.required_buffer z.buffer_required) ||
            (e.start ≥ t + task.duration &&
              e.start - (t + task.duration) <
                max task.constraints.required_buffer z.buffer_required))
          (z.get_conflicts
            (t - max task.constraints.required_buffer z.buffer_required)
            (task.duration + 2 * max task.constraints.required_buffer z.buffer_required)) :=
        List.mem_filter.mpr ⟨he, by
          simp only [Bool.or_eq_true, Bool.and_eq_true, decide_eq_true_eq]; exact hcond⟩
      rw [h2] at this
      cases this

/-- The zone-constraint checks extracted from a `None` result of
`find_conflicts` on a zone. -/
theorem find_conflicts_none_zone (task : Task) (t : Int) (z : TimeBlockZone)
    (hnone : ConflictDetector.find_conflicts task t (.zone z) = none) :
    z.zone_type = task.constraints.zone_type ∧
    z.energy_level = task.constraints.energy_level ∧
    z.min_duration ≤ task.duration :=
  (find_conflicts_none_inv task t z hnone).2.2

/-- If `find_conflicts` accepts a placement on a zone, every event of
the zone ending at or before the proposed start ends at least
`max(task.required_buffer, zone.buffer_required)` minutes before it,
and symmetrically after the proposed end.  The predecessor event's
own `buffer_required` plays no role. -/
theorem find_conflicts_none_sep (task : Task) (t : Int) (z : TimeBlockZone)
    (hdur : 0 < task.duration)
    (hbuf : 0 ≤ task.constraints.required_buffer)
    (hwf : ∀ e ∈ z.events, e.start ≤ e.end_)
    (hnone : ConflictDetector.find_conflicts task t (.zone z) = none) :
    ∀ e ∈ z.events,
      (e.end_ ≤ t →
        max task.constraints.required_buffer z.buffer_required ≤ t - e.end_) ∧
      (t + task.duration ≤ e.start →
        max task.constraints.required_buffer z.buffer_required ≤
          e.start - (t + task.duration)) := by
  intro e he
  obtain ⟨-, hsep, -⟩ := find_conflicts_none_inv task t z hnone
  have hB : 0 ≤ max task.constraints.required_buffer z.buffer_required :=
    le_trans hbuf (le_max_left _ _)
  have hwfe := hwf e he
  constructor
  · intro hle
    by_contra hlt
    push_neg at hlt
    have hmem : e ∈ z.get_conflicts
        (t - max task.constraints.required_buffer z.buffer_required)
        (task.duration + 2 * max task.constraints.required_buffer z.buffer_required) :=
      mem_zone_get_conflicts z _ _ e he (by omega) (by omega)
    exact hsep e hmem (Or.inl ⟨hle, hlt⟩)
  · intro hge
    by_contra hlt
    push_neg at hlt
    have hmem : e ∈ z.get_conflicts
        (t - max task.constraints.required_buffer z.buffer_required)
        (task.duration + 2 * max task.constraints.required_buffer z.buffer_required) :=
      mem_zone_get_conflicts z _ _ e he (by omega) (by omega)
    exact hsep e hmem (Or.inr ⟨hge, hlt⟩)

/-! ## Single-block placement (claims C1, C2, C3) -/

/-- Full specification of a successful `_try_schedule_task`: the
produced event is MANAGED, carries the task's buffer, lasts exactly
`task.duration`, starts no earlier than the last previously listed
event's end plus `max(task.required_buffer, last.buffer_required)`,
and lies inside some zone of the list that matches the task's zone
type and energy level and whose `min_duration` the task meets. -/
theorem try_schedule_task_spec (task : Task) :
    ∀ zones events E,
      SequenceBasedStrategy.try_schedule_task task zones events = some E →
      E.type = TimeBlockType.managed ∧
      E.buffer_required = task.constraints.required_buffer ∧
      E.end_ = E.start + task.duration ∧
      (∀ last, events.getLast? = some last →
        last.end_ + max task.constraints.required_buffer last.buffer_required ≤ E.start) ∧
      ∃ zone ∈ zones, zone.zone_type = task.constraints.zone_type ∧
        zone.energy_level = task.constraints.energy_level ∧
        zone.start ≤ E.start ∧ E.end_ ≤ zone.end_ ∧ zone.min_duration ≤ task.duration := by
  intro zones
  induction zones with
  | nil =>
    intro events E h
    simp [SequenceBasedStrategy.try_schedule_task] at h
  | cons zone rest ih =>
    intro events E h
    rw [SequenceBasedStrategy.try_schedule_task] at h
    by_cases hzt : zone.zone_type = task.constraints.zone_type
    · rw [if_neg (fun hne => hne hzt)] at h
      cases hlast : events.getLast? with
      | none =>
        simp only [hlast] at h
        split_ifs at h with hfit
        · cases hfc : ConflictDetector.find_conflicts task zone.start (.zone zone) with
          | none =>
            rw [hfc] at h
            obtain ⟨-, hen, hmin⟩ := find_conflicts_none_zone task zone.start zone hfc
            injection h with hE
            subst hE
            refine ⟨rfl, rfl, rfl, ?_, zone, List.mem_cons_self zone rest,
              hzt, hen, le_refl _, hfit, hmin⟩
            intro last hl
            cases hl
          | some c =>
            rw [hfc] at h
            obtain ⟨h1, h2, h3, h4, zone', hz', hrest⟩ := ih events E h
            refine ⟨h1, h2, h3, ?_, zone', List.mem_cons_of_mem _ hz', hrest⟩
            intro last hl
            cases hl
        · obtain ⟨h1, h2, h3, h4, zone', hz', hrest⟩ := ih events E h
          refine ⟨h1, h2, h3, ?_, zone', List.mem_cons_of_mem _ hz', hrest⟩
          intro last hl
          cases hl
      | some last =>
        simp only [hlast] at h
        split_ifs at h with hfit
        · cases hfc : ConflictDetector.find_conflicts task
            (max zone.start
              (last.end_ + max task.constraints.required_buffer last.buffer_required))
            (.zone zone) with
          | none =>
            rw [hfc] at h
            obtain ⟨-, hen, hmin⟩ := find_conflicts_none_zone task _ zone hfc
            injection h with hE
            subst hE
            refine ⟨rfl, rfl, rfl, ?_, zone, List.mem_cons_self zone rest,
              hzt, hen, le_max_left _ _, hfit, hmin⟩
            intro last' hl
            injection hl with hl
            subst hl
            exact le_max_right _ _
          | some c =>
            rw [hfc] at h
            obtain ⟨h1, h2, h3, h4, zone', hz', hrest⟩ := ih events E h
            refine ⟨h1, h2, h3, ?_, zone', List.mem_cons_of_mem _ hz', hrest⟩
            intro last' hl
            injection hl with hl
            subst hl
            exact h4 _ hlast
        · obtain ⟨h1, h2, h3, h4, zone', hz', hrest⟩ := ih events E h
          refine ⟨h1, h2, h3, ?_, zone', List.mem_cons_of_mem _ hz', hrest⟩
          intro last' hl
          injection hl with hl
          subst hl
          exact h4 _ hlast
    · rw [if_pos hzt] at h
      obtain ⟨h1, h2, h3, h4, zone', hz', hrest⟩ := ih events E h
      refine ⟨h1, h2, h3, ?_, zone', List.mem_cons_of_mem _ hz', hrest⟩
      intro last hl
      exact h4 last hl

/-- Claim C3 (amended): the buffer the code enforces is a two-way
maximum at each site, never the claimed three-way maximum.
`ConflictDetector.find_conflicts` enforces
`max(task.required_buffer, zone.buffer_required)` on both sides of
the placement (the predecessor event's `buffer_required` is not
consulted), while `_try_schedule_task` separately enforces
`max(task.required_buffer, last_event.buffer_required)` against the
last placed event (the zone's `buffer_required` is not consulted
there). -/
theorem C3_two_way_buffer :
    (∀ (task : Task) (t : Int) (z : TimeBlockZone),
      0 < task.duration → 0 ≤ task.constraints.required_buffer →
      (∀ e ∈ z.events, e.start ≤ e.end_) →
      ConflictDetector.find_conflicts task t (.zone z) = none →
      ∀ e ∈ z.events,
        (e.end_ ≤ t →
          max task.constraints.required_buffer z.buffer_required ≤ t - e.end_) ∧
        (t + task.duration ≤ e.start →
          max task.constraints.required_buffer z.buffer_required ≤
            e.start - (t + task.duration))) ∧
    (∀ (task : Task) (zones : List TimeBlockZone) (events : List Event)
      (E last : Event),
      events.getLast? = some last →
      SequenceBasedStrategy.try_schedule_task task zones events = some E →
      last.end_ + max task.constraints.required_buffer last.buffer_required ≤ E.start) :=
  ⟨fun task t z hdur hbuf hwf hnone =>
    find_conflicts_none_sep task t z hdur hbuf hwf hnone,
   fun task zones events E last hl h =>
    (try_schedule_task_spec task zones events E h).2.2.2.1 last hl⟩

/-- Claim C3 counterexample: the predecessor event carries
`buffer_required = 30`; a placement only 10 minutes after its end is
accepted by `find_conflicts`, so the enforced buffer is not
`max(task.required_buffer, zone.buffer_required,
predecessor.buffer_required)`. -/
theorem C3_cex_predecessor_buffer_ignored :
    ConflictDetector.find_conflicts cexBufTask 70 (.zone cexBufZone) = none ∧
    cexBufEvent ∈ cexBufZone.events ∧
    70 - cexBufEvent.end_ <
      max (max cexBufTask.constraints.required_buffer cexBufZone.buffer_required)
        cexBufEvent.buffer_required := by
  decide

/-- Claim C3 witness: both conjuncts of the amended claim realised at
concrete inputs. -/
theorem C3_witness :
    (∀ e ∈ cexBufZone.events,
      (e.end_ ≤ 100 →
        max cexWitTask.constraints.required_buffer cexBufZone.buffer_required ≤
          100 - e.end_) ∧
      (100 + cexWitTask.duration ≤ e.start →
        max cexWitTask.constraints.required_buffer cexBufZone.buffer_required ≤
          e.start - (100 + cexWitTask.duration))) ∧
    cexFixedEarly.end_ +
        max cexTask.constraints.required_buffer cexFixedEarly.buffer_required ≤
      cexPlaced.start :=
  ⟨C3_two_way_buffer.1 cexWitTask 100 cexBufZone (by decide) (by decide)
      (by decide) (by decide),
   C3_two_way_buffer.2 cexTask [cexZone] [cexFixedEarly] cexPlaced cexFixedEarly
      (by decide) (by decide)⟩

/-! ## Slot search (claim C7) -/

/-- A time returned by the scan loop passes `find_conflicts`. -/
theorem slotLoop_some (task : Task) (tb : PyBlock) (e : Int) :
    ∀ fuel c t, ConflictDetector.slotLoop task tb e fuel c = some t →
      ConflictDetector.find_conflicts task t tb = none := by
  intro fuel
  induction fuel with
  | zero => intro c t h; cases h
  | succ n ih =>
    intro c t h
    rw [ConflictDetector.slotLoop] at h
    by_cases hce : c < e
    · rw [if_pos hce] at h
      by_cases hfc : ConflictDetector.find_conflicts task c tb = none
      · rw [if_pos hfc] at h
        injection h with h
        subst h
        exact hfc
      · rw [if_neg hfc] at h
        exact ih (c + 15) t h
    · rw [if_neg hce] at h
      cases h

/-- When every time of the scan window conflicts, the scan loop
returns `none`. -/
theorem slotLoop_none (task : Task) (tb : PyBlock) (e lo : Int)
    (hall : ∀ u, lo ≤ u → u < e →
      ConflictDetector.find_conflicts task u tb ≠ none) :
    ∀ fuel c, lo ≤ c → ConflictDetector.slotLoop task tb e fuel c = none := by
  intro fuel
  induction fuel with
  | zero => intro c _; rfl
  | succ n ih =>
    intro c hc
    rw [ConflictDetector.slotLoop]
    by_cases hce : c < e
    · rw [if_pos hce, if_neg (hall c hc hce)]
      exact ih (c + 15) (by omega)
    · rw [if_neg hce]

/-- Claim C7: `find_available_slot` never returns a time at which
`find_conflicts` is non-`None`, and it returns `None` whenever every
time of the scan window
`[max(start_from, block.start), min(task.due_date, block.end))` has a
conflict. -/
theorem C7_find_available_slot_correct (task : Task) (tb : PyBlock)
    (start_from : Int) :
    (∀ t, ConflictDetector.find_available_slot task tb start_from = some t →
      ConflictDetector.find_conflicts task t tb = none) ∧
    ((∀ u, max start_from tb.startB ≤ u → u < min task.due_date tb.endB →
        ConflictDetector.find_conflicts task u tb ≠ none) →
      ConflictDetector.find_available_slot task tb start_from = none) := by
  constructor
  · intro t h
    unfold ConflictDetector.find_available_slot at h
    exact slotLoop_some task tb _ _ _ t h
  · intro hall
    unfold ConflictDetector.find_available_slot
    have hlo : ∀ o : Option Event,
        max start_from tb.startB ≤
          (match o with
          | some last_event_before =>
            max (max start_from tb.startB)
              (last_event_before.end_ +
                max task.constraints.required_buffer tb.zoneBuffer)
          | none => max start_from tb.startB) := by
      intro o
      cases o with
      | none => exact le_rfl
      | some x => exact le_max_left _ _
    exact slotLoop_none task tb _ _ hall _ _ (hlo _)

/-- Claim C7 witness: the slot found at a concrete input is
conflict-free, and an empty scan window (due date before the block)
yields `None`. -/
theorem C7_witness :
    ConflictDetector.find_conflicts cexBufTask 60 (.zone cexBufZone) = none ∧
    ConflictDetector.find_available_slot cexPastTask (.zone cexZone) 0 = none :=
  ⟨(C7_find_available_slot_correct cexBufTask (.zone cexBufZone) 0).1 60 (by decide),
   (C7_find_available_slot_correct cexPastTask (.zone cexZone) 0).2
     (fun u hu hlt => absurd (lt_of_le_of_lt hu hlt) (by decide))⟩

/-! ## Overlap freedom of the scheduling loop (claim C1) -/

/-- In a separated list, every event ends no later than the last one
does. -/
theorem mem_end_le_getLast (l : List Event) (hsep : SeparatedEvents l) :
    ∀ a ∈ l, ∀ last, l.getLast? = some last → a.end_ ≤ last.end_ := by
  induction l with
  | nil => intro a ha; cases ha
  | cons x xs ih =>
    obtain ⟨hpw, hwf⟩ := hsep
    rw [List.pairwise_cons] at hpw
    intro a ha last hlast
    cases xs with
    | nil =>
      rcases List.mem_singleton.mp ha with rfl
      injection hlast with hlast
      subst hlast
      exact le_refl _
    | cons y ys =>
      rw [List.getLast?_cons_cons] at hlast
      have hlmem : last ∈ y :: ys := List.mem_of_mem_getLast? hlast
      rcases List.mem_cons.mp ha with rfl | ha
      · exact le_trans (hpw.1 last hlmem)
          (hwf last (List.mem_cons_of_mem _ hlmem))
      · exact ih ⟨hpw.2, fun e he => hwf e (List.mem_cons_of_mem _ he)⟩
          a ha last hlast

/-- Appending an event that starts after the last listed event ends
preserves separation. -/
theorem separated_append_one (l : List Event) (E : Event)
    (hsep : SeparatedEvents l) (hE : E.start ≤ E.end_)
    (hlast : ∀ last, l.getLast? = some last → last.end_ ≤ E.start) :
    SeparatedEvents (l ++ [E]) := by
  constructor
  · rw [List.pairwise_append]
    refine ⟨hsep.1, List.pairwise_singleton _ _, ?_⟩
    intro a ha b hb
    rcases List.mem_singleton.mp hb with rfl
    cases hl : l.getLast? with
    | none =>
      rw [List.getLast?_eq_none_iff] at hl
      subst hl
      cases ha
    | some last =>
      exact le_trans (mem_end_le_getLast l hsep a ha last hl) (hlast last hl)
  · intro e he
    rcases List.mem_append.mp he with he | he
    · exact hsep.2 e he
    · rcases List.mem_singleton.mp he with rfl
      exact hE

/-- Two distinct members of a separated list never overlap. -/
theorem separated_no_overlap (l : List Event) (hsep : SeparatedEvents l) :
    ∀ a ∈ l, ∀ b ∈ l, a ≠ b → ¬ eventsOverlap a b := by
  have hp : l.Pairwise (fun a b => ¬ eventsOverlap a b ∧ ¬ eventsOverlap b a) :=
    hsep.1.imp (fun {a b} h =>
      ⟨fun ho => absurd h (not_le.mpr ho.2), fun ho => absurd h (not_le.mpr ho.1)⟩)
  intro a ha b hb hne
  exact (List.Pairwise.forall (fun x y h => ⟨h.2, h.1⟩) hp ha hb hne).1

/-- A selected task is one of the remaining tasks. -/
theorem selectTask_mem (remaining : List Task) (ids : List String) (task : Task)
    (h : SequenceBasedStrategy.selectTask remaining ids = some task) :
    task ∈ remaining := by
  simp only [SequenceBasedStrategy.selectTask] at h
  cases hs : stableSort taskLt (remaining.filter
      (fun t => t.constraints.dependencies.all (fun d => ids.contains d))) with
  | nil => rw [hs] at h; cases h
  | cons x xs =>
    rw [hs] at h
    injection h with h
    rw [← h]
    have hx : x ∈ stableSort taskLt (remaining.filter
        (fun t => t.constraints.dependencies.all (fun d => ids.contains d))) := by
      rw [hs]; exact List.mem_cons_self _ _
    rw [mem_stableSort] at hx
    exact (List.mem_filter.mp hx).1

/-- Invariant of the scheduling loop: when every remaining task is
non-splittable with nonnegative duration and buffer, a separated
event list stays separated, and the loop only ever appends to it. -/
theorem scheduleLoop_separated (all_zones : List TimeBlockZone) :
    ∀ fuel remaining events ids,
      (∀ t ∈ remaining, t.constraints.is_splittable = false ∧ 0 ≤ t.duration ∧
        0 ≤ t.constraints.required_buffer) →
      SeparatedEvents events →
      SeparatedEvents
        (SequenceBasedStrategy.scheduleLoop all_zones fuel remaining events ids).1 ∧
      events <+:
        (SequenceBasedStrategy.scheduleLoop all_zones fuel remaining events ids).1 := by
  intro fuel
  induction fuel with
  | zero => intro remaining events ids _ hsep; exact ⟨hsep, List.prefix_rfl⟩
  | succ n ih =>
    intro remaining events ids hrem hsep
    rw [SequenceBasedStrategy.scheduleLoop]
    cases hsel : SequenceBasedStrategy.selectTask remaining ids with
    | none => exact ⟨hsep, List.prefix_rfl⟩
    | some task =>
      have htask := hrem task (selectTask_mem _ _ _ hsel)
      simp only []
      rw [if_neg (fun hs => absurd hs (by rw [htask.1]; exact Bool.false_ne_true))]
      cases htry : SequenceBasedStrategy.try_schedule_task task all_zones events with
      | none => exact ⟨hsep, List.prefix_rfl⟩
      | some E =>
        obtain ⟨-, hEbuf, hEend, hElast, -⟩ :=
          try_schedule_task_spec task all_zones events E htry
        have hsep' : SeparatedEvents (events ++ [E]) := by
          refine separated_append_one events E hsep (by rw [hEend]; omega) ?_
          intro last hl
          have h1 := hElast last hl
          have h2 : 0 ≤ max task.constraints.required_buffer last.buffer_required :=
            le_trans htask.2.2 (le_max_left _ _)
          omega
        obtain ⟨hs, hp⟩ := ih (remaining.erase task) (events ++ [E])
          (ids ++ [task.id]) (fun t ht => hrem t (List.erase_subset _ _ ht)) hsep'
        exact ⟨hs, ((List.prefix_append events [E]).trans hp)⟩

/-- Claim C1 (amended): when every task is non-splittable with
nonnegative duration and buffer, and the existing FIXED events are
listed chronologically (each ending no later than the next begins),
the output of `SequenceBasedStrategy.schedule` contains no two
overlapping events and no event overlapping an input FIXED event.
(The counterexample shows the claim fails as stated once the fixed
events are not so ordered; splittable tasks break it too.) -/
theorem C1_no_overlap (tasks : List Task) (zones : List TimeBlockZone)
    (existing : List Event)
    (hns : ∀ t ∈ tasks, t.constraints.is_splittable = false)
    (hdur : ∀ t ∈ tasks, 0 ≤ t.duration)
    (hbuf : ∀ t ∈ tasks, 0 ≤ t.constraints.required_buffer)
    (hfix : ∀ e ∈ existing, e.type = TimeBlockType.fixed)
    (hsep : SeparatedEvents existing) :
    (SequenceBasedStrategy.schedule tasks zones existing).Pairwise
      (fun a b => ¬ eventsOverlap a b) ∧
    (∀ m ∈ SequenceBasedStrategy.schedule tasks zones existing,
      ∀ f ∈ existing, ¬ eventsOverlap m f) := by
  unfold SequenceBasedStrategy.schedule
  split_ifs with hz
  · exact ⟨List.Pairwise.nil, fun m hm => absurd hm (List.not_mem_nil m)⟩
  · obtain ⟨hsep', hpre⟩ := scheduleLoop_separated
      (SequenceBasedStrategy.create_multi_day_zones zones 7) tasks.length tasks
      existing [] (fun t ht => ⟨hns t ht, hdur t ht, hbuf t ht⟩) hsep
    constructor
    · have hp : (SequenceBasedStrategy.scheduleLoop
          (SequenceBasedStrategy.create_multi_day_zones zones 7) tasks.length tasks
          existing []).1.Pairwise (fun a b => ¬ eventsOverlap a b) :=
        hsep'.1.imp (fun {a b} h ho => absurd h (not_le.mpr ho.2))
      exact hp.sublist (List.filter_sublist _)
    · intro m hm f hf
      have hm' := List.mem_filter.mp hm
      have hmty : m.type = TimeBlockType.managed := by
        have := hm'.2
        simpa using this
      have hf' : f ∈ (SequenceBasedStrategy.scheduleLoop
          (SequenceBasedStrategy.create_multi_day_zones zones 7) tasks.length tasks
          existing []).1 := hpre.subset hf
      have hne : m ≠ f := by
        intro hEq
        rw [hEq, hfix f hf] at hmty
        cases hmty
      exact separated_no_overlap _ hsep' m hm'.1 f hf' hne

/-- Claim C1 counterexample: with the fixed events listed out of
chronological order, the strategy places the task right after the
event that happens to be last in the list and returns a MANAGED
event overlapping the input FIXED event 10:00–11:00. -/
theorem C1_cex_overlaps_fixed :
    SequenceBasedStrategy.schedule [cexTask] [cexZone] [cexFixedLate, cexFixedEarly] =
      [cexPlaced] ∧
    cexPlaced.type = TimeBlockType.managed ∧
    cexFixedLate.type = TimeBlockType.fixed ∧
    eventsOverlap cexPlaced cexFixedLate := by
  decide

/-- Claim C1 witness: the amended theorem applied to a concrete
non-splittable task and an empty (hence separated) fixed-event
list. -/
theorem C1_witness :
    (SequenceBasedStrategy.schedule [cexTask] [cexZone] []).Pairwise
      (fun a b => ¬ eventsOverlap a b) ∧
    (∀ m ∈ SequenceBasedStrategy.schedule [cexTask] [cexZone] [],
      ∀ f ∈ ([] : List Event), ¬ eventsOverlap m f) :=
  C1_no_overlap [cexTask] [cexZone] [] (by decide) (by decide) (by decide)
    (fun e he => absurd he (List.not_mem_nil e))
    ⟨List.Pairwise.nil, fun e he => absurd he (List.not_mem_nil e)⟩

/-! ## Chunk placement guarantees (claim C2) -/

/-- Every middle slot starts after the zone start (shifted by a
nonnegative buffer from an event that overlaps the zone) and ends at
the start of an event that overlaps the zone. -/
theorem middleSlots_spec (mind zlo zhi : Int) :
    ∀ l : List Event,
      (∀ x ∈ l, zlo < x.end_ ∧ x.start < zhi ∧ 0 ≤ x.buffer_required) →
      ∀ s e, (s, e) ∈ SequenceBasedStrategy.middleSlots mind l →
        zlo ≤ s ∧ e ≤ zhi := by
  intro l
  induction l with
  | nil => intro _ s e h; simp [SequenceBasedStrategy.middleSlots] at h
  | cons a rest ih =>
    cases rest with
    | nil => intro _ s e h; simp [SequenceBasedStrategy.middleSlots] at h
    | cons b rest2 =>
      intro hx s e h
      rw [SequenceBasedStrategy.middleSlots] at h
      rcases List.mem_append.mp h with h | h
      · simp only [] at h
        split_ifs at h with hcond
        · rcases List.mem_singleton.mp h with h2
          obtain ⟨rfl, rfl⟩ := Prod.mk.injEq .. |>.mp h2
          obtain ⟨ha1, -, ha3⟩ := hx a (List.mem_cons_self _ _)
          obtain ⟨-, hb2, -⟩ := hx b (List.mem_cons_of_mem _ (List.mem_cons_self _ _))
          exact ⟨by omega, le_of_lt hb2⟩
        · cases h
      · exact ih (fun x hx2 => hx x (List.mem_cons_of_mem _ hx2)) s e h

/-- Every slot `_find_available_slots` reports lies between the
zone's bounds, provided event buffers are nonnegative. -/
theorem find_available_slots_spec (zone : TimeBlockZone) (events : List Event)
    (mind : Int) (hbuf : ∀ e ∈ events, 0 ≤ e.buffer_required) :
    ∀ s e, (s, e) ∈ SequenceBasedStrategy.find_available_slots zone events mind →
      zone.start ≤ s ∧ e ≤ zone.end_ := by
  have hzs : ∀ x ∈ stableSort (fun a b => a.start < b.start)
      (events.filter (fun ev => ev.end_ > zone.start && ev.start < zone.end_)),
      zone.start < x.end_ ∧ x.start < zone.end_ ∧ 0 ≤ x.buffer_required := by
    intro x hx
    rw [mem_stableSort] at hx
    obtain ⟨hxe, hcond⟩ := List.mem_filter.mp hx
    simp only [Bool.and_eq_true, decide_eq_true_eq] at hcond
    exact ⟨hcond.1, hcond.2, hbuf x hxe⟩
  intro s e h
  simp only [SequenceBasedStrategy.find_available_slots] at h
  split at h
  next hzev =>
    split_ifs at h with hlen
    · rcases List.mem_singleton.mp h with h2
      obtain ⟨rfl, rfl⟩ := (Prod.mk.injEq ..).mp h2
      exact ⟨le_refl _, le_refl _⟩
    · cases h
  next first restEvents hzev =>
    rcases List.mem_append.mp h with h | h
    · rcases List.mem_append.mp h with h | h
      · split_ifs at h with hc
        · rcases List.mem_singleton.mp h with h2
          obtain ⟨rfl, rfl⟩ := (Prod.mk.injEq ..).mp h2
          refine ⟨le_refl _, ?_⟩
          exact le_of_lt (hzs first (by rw [hzev]; exact List.mem_cons_self _ _)).2.1
        · cases h
      · refine middleSlots_spec mind zone.start zone.end_ (first :: restEvents) ?_ s e h
        intro x hx
        exact hzs x (by rw [hzev]; exact hx)
    · split_ifs at h with hc
      · rcases List.mem_singleton.mp h with h2
        obtain ⟨rfl, rfl⟩ := (Prod.mk.injEq ..).mp h2
        have hlm : (first :: restEvents).getLastD first ∈ first :: restEvents :=
          List.mem_of_mem_getLast? rfl
        obtain ⟨hl1, hl2, hl3⟩ := hzs _ (by rw [hzev]; exact hlm)
        exact ⟨by omega, le_refl _⟩
      · cases h

/-- Invariant of the inner slot loop of `_try_schedule_split_task`:
chunks carved from slots that lie inside a type-matching zone are
good chunks, and event buffers stay nonnegative. -/
theorem placeChunksInSlots_spec (task : Task) (zonesAll : List TimeBlockZone)
    (zone : TimeBlockZone) (hz : zone ∈ zonesAll)
    (hzt : zone.zone_type = task.constraints.zone_type)
    (htb : 0 ≤ task.constraints.required_buffer) :
    ∀ slots st,
      (∀ s e, (s, e) ∈ slots → zone.start ≤ s ∧ e ≤ zone.end_) →
      (∀ E ∈ st.task_events, GoodChunkIn task zonesAll E) →
      (∀ E ∈ st.current_events, 0 ≤ E.buffer_required) →
      (∀ E ∈ (SequenceBasedStrategy.placeChunksInSlots task slots st).task_events,
        GoodChunkIn task zonesAll E) ∧
      (∀ E ∈ (SequenceBasedStrategy.placeChunksInSlots task slots st).current_events,
        0 ≤ E.buffer_required) := by
  intro slots
  induction slots with
  | nil => intro st _ h1 h2; exact ⟨h1, h2⟩
  | cons sl rest ih =>
    obtain ⟨ss, se⟩ := sl
    intro st hslots h1 h2
    rw [SequenceBasedStrategy.placeChunksInSlots]
    simp only []
    split_ifs with hstop hchunk
    · exact ⟨h1, h2⟩
    · refine ih _ (fun s e hm => hslots s e (List.mem_cons_of_mem _ hm)) ?_ ?_
      · intro E hE
        rcases List.mem_append.mp hE with hE | hE
        · exact h1 E hE
        · rcases List.mem_singleton.mp hE with rfl
          obtain ⟨hs0, he0⟩ := hslots ss se (List.mem_cons_self _ _)
          refine ⟨rfl, rfl, by simp only []; omega, zone, hz, hzt, hs0, ?_⟩
          have hcd : min (min st.remaining_duration (se - ss)) 120 ≤ se - ss :=
            le_trans (min_le_left _ _) (min_le_right _ _)
          simp only []
          omega
      · intro E hE
        rcases List.mem_append.mp hE with hE | hE
        · exact h2 E hE
        · rcases List.mem_singleton.mp hE with rfl
          exact htb
    · exact ih st (fun s e hm => hslots s e (List.mem_cons_of_mem _ hm)) h1 h2

/-- Invariant of the zone loop of `_try_schedule_split_task`: every
accumulated chunk event is a good chunk of some zone in the list. -/
theorem splitZoneLoop_spec (task : Task) (zonesAll : List TimeBlockZone)
    (htb : 0 ≤ task.constraints.required_buffer) :
    ∀ zones st, (∀ z ∈ zones, z ∈ zonesAll) →
      (∀ E ∈ st.task_events, GoodChunkIn task zonesAll E) →
      (∀ E ∈ st.current_events, 0 ≤ E.buffer_required) →
      ∀ E ∈ (SequenceBasedStrategy.splitZoneLoop task zones st).task_events,
        GoodChunkIn task zonesAll E := by
  intro zones
  induction zones with
  | nil => intro st _ h1 _; exact h1
  | cons zone rest ih =>
    intro st hsub h1 h2
    rw [SequenceBasedStrategy.splitZoneLoop]
    split_ifs with hrem hzt
    · exact h1
    · exact ih st (fun z hz => hsub z (List.mem_cons_of_mem _ hz)) h1 h2
    · push_neg at hzt
      obtain ⟨h1', h2'⟩ := placeChunksInSlots_spec task zonesAll zone
        (hsub zone (List.mem_cons_self _ _)) hzt htb
        (SequenceBasedStrategy.find_available_slots zone st.current_events
          task.constraints.min_chunk_duration)
        st
        (find_available_slots_spec zone st.current_events
          task.constraints.min_chunk_duration h2)
        h1 h2
      exact ih _ (fun z hz => hsub z (List.mem_cons_of_mem _ hz)) h1' h2'

/-- Every chunk event returned by `_try_schedule_split_task` is a
good chunk of some zone of the zone list. -/
theorem try_schedule_split_task_spec (task : Task) (zones : List TimeBlockZone)
    (events : List Event)
    (htb : 0 ≤ task.constraints.required_buffer)
    (hbuf : ∀ e ∈ events, 0 ≤ e.buffer_required) :
    ∀ tevs,
      SequenceBasedStrategy.try_schedule_split_task task zones events = some tevs →
      ∀ E ∈ tevs, GoodChunkIn task zones E := by
  intro tevs h E hE
  simp only [SequenceBasedStrategy.try_schedule_split_task] at h
  split_ifs at h with hrem
  injection h with h
  subst h
  refine splitZoneLoop_spec task zones htb
    (stableSort (fun a b : TimeBlockZone => a.start < b.start) zones)
    { remaining_duration := task.duration, chunk_count := 0,
      task_events := [], current_events := events }
    (fun z hz => (mem_stableSort _ z _).mp hz)
    (fun E hE => absurd hE (List.not_mem_nil E))
    hbuf E hE

/-- Claim C2 (amended): a single-block placement lies fully inside a
zone matching both `zone_type` and `energy_level`, lasts exactly the
task's duration and meets `zone.min_duration`; a chunk placement lies
fully inside a zone matching `zone_type` only (energy level and
`zone.min_duration` are not checked on that path) and lasts at least
`min_chunk_duration`.  The spacing kept by the chunk path is each
predecessor event's own `buffer_required`, not the three-way
effective buffer (see the counterexample). -/
theorem C2_placement_guarantees (task : Task) (zones : List TimeBlockZone)
    (events : List Event) :
    (∀ E, SequenceBasedStrategy.try_schedule_task task zones events = some E →
      E.end_ - E.start = task.duration ∧
      ∃ zone ∈ zones, zone.zone_type = task.constraints.zone_type ∧
        zone.energy_level = task.constraints.energy_level ∧
        zone.start ≤ E.start ∧ E.end_ ≤ zone.end_ ∧
        zone.min_duration ≤ task.duration) ∧
    (0 ≤ task.constraints.required_buffer →
      (∀ e ∈ events, 0 ≤ e.buffer_required) →
      ∀ tevs,
        SequenceBasedStrategy.try_schedule_split_task task zones events = some tevs →
        ∀ E ∈ tevs, E.type = TimeBlockType.managed ∧
          task.constraints.min_chunk_duration ≤ E.end_ - E.start ∧
          ∃ zone ∈ zones, zone.zone_type = task.constraints.zone_type ∧
            zone.start ≤ E.start ∧ E.end_ ≤ zone.end_) := by
  constructor
  · intro E h
    obtain ⟨-, -, hend, -, zone, hzm, hzt, hen, hs, he, hmin⟩ :=
      try_schedule_task_spec task zones events E h
    exact ⟨by omega, zone, hzm, hzt, hen, hs, he, hmin⟩
  · intro htb hbuf tevs h E hE
    obtain ⟨hty, -, hdur, zone, hzm, hzt, hs, he⟩ :=
      try_schedule_split_task_spec task zones events htb hbuf tevs h E hE
    exact ⟨hty, hdur, zone, hzm, hzt, hs, he⟩

/-- Claim C2 counterexample: the chunk path schedules `cexSplitTask`
(energy HIGH, buffer 20) into a LOW-energy zone — no zone instance of
the pass matches the task's energy level — and the first chunk ends
exactly at the fixed event's start, so the separation from the
neighbouring event is 0 < 20 and the 60-minute chunk is below the
zone's 200-minute `min_duration`. -/
theorem C2_cex_energy_buffer_ignored :
    SequenceBasedStrategy.schedule [cexSplitTask] [cexLowZone] [cexFixedMid] =
      [cexChunk1, cexChunk2] ∧
    (∀ z ∈ SequenceBasedStrategy.create_multi_day_zones [cexLowZone] 7,
      ¬ z.energy_level = cexSplitTask.constraints.energy_level) ∧
    cexChunk1.end_ = cexFixedMid.start ∧
    0 < cexSplitTask.constraints.required_buffer ∧
    cexChunk1.end_ - cexChunk1.start < cexLowZone.min_duration := by
  decide

/-- Claim C2 witness: both conjuncts of the amended claim realised at
concrete inputs — a single-block placement into `cexZone` and the
two-chunk placement into `cexLowZone`. -/
theorem C2_witness :
    (cexPlaced.end_ - cexPlaced.start = cexTask.duration ∧
      ∃ zone ∈ [cexZone], zone.zone_type = cexTask.constraints.zone_type ∧
        zone.energy_level = cexTask.constraints.energy_level ∧
        zone.start ≤ cexPlaced.start ∧ cexPlaced.end_ ≤ zone.end_ ∧
        zone.min_duration ≤ cexTask.duration) ∧
    (∀ E ∈ [cexChunk1, cexChunk2], E.type = TimeBlockType.managed ∧
      cexSplitTask.constraints.min_chunk_duration ≤ E.end_ - E.start ∧
      ∃ zone ∈ SequenceBasedStrategy.create_multi_day_zones [cexLowZone] 7,
        zone.zone_type = cexSplitTask.constraints.zone_type ∧
        zone.start ≤ E.start ∧ E.end_ ≤ zone.end_) :=
  ⟨(C2_placement_guarantees cexTask [cexZone] [cexFixedEarly]).1 cexPlaced (by decide),
   (C2_placement_guarantees cexSplitTask
      (SequenceBasedStrategy.create_multi_day_zones [cexLowZone] 7) [cexFixedMid]).2
     (by decide) (by decide) [cexChunk1, cexChunk2] (by decide)⟩

/-! ## Scheduler orchestration (claims C8, C9) -/

/-- Claim C8 (amended): with a non-empty task list,
`Scheduler.schedule_tasks` returns exactly the strategy's output over
the fetched tasks, the hardcoded 9:00–13:00 DEEP/HIGH default zone
(the repository's zone templates are never fetched), and the fixed
events of the horizon; the persisted calendar afterwards consists of
the previous events minus the MANAGED ones plus the returned
events. -/
theorem C8_schedule_tasks (st : RepoState) (now : Int)
    (h : ¬ st.tasks.isEmpty = true) :
    (schedule_tasks st now).2 =
      SequenceBasedStrategy.schedule st.tasks
        [defaultZone (SequenceBasedStrategy.replaceHM now 9 0)]
        (st.get_events (SequenceBasedStrategy.replaceHM now 9 0)
          (SequenceBasedStrategy.replaceHM now 9 0 + 1440 * 7)) ∧
    (∀ e, e ∈ (schedule_tasks st now).1.calendar ↔
      ((e ∈ st.calendar ∧ ¬ e.type = TimeBlockType.managed) ∨
        e ∈ (schedule_tasks st now).2)) := by
  constructor
  · unfold schedule_tasks
    rw [if_neg h]
    rfl
  · intro e
    unfold schedule_tasks
    rw [if_neg h]
    simp only [RepoState.remove_managed_events, List.mem_append, List.mem_filter,
      decide_eq_true_eq]

/-- Claim C8 counterexample: a repository whose zone templates accept
its only (LIGHT) task.  The code schedules nothing because it uses
the hardcoded DEEP default zone instead of fetching the templates;
the spec-described pass (`claimed_schedule_tasks`, identical except
that it uses the repository's templates) schedules the task. -/
theorem C8_cex_zone_templates_ignored :
    (schedule_tasks cexRepoState 600).2 = [] ∧
    (claimed_schedule_tasks cexRepoState 600).2 ≠ [] := by
  decide

/-- Claim C8 witness: the amended theorem applied to the concrete
repository state. -/
theorem C8_witness :
    (schedule_tasks cexRepoState 600).2 =
      SequenceBasedStrategy.schedule cexRepoState.tasks
        [defaultZone (SequenceBasedStrategy.replaceHM 600 9 0)]
        (cexRepoState.get_events (SequenceBasedStrategy.replaceHM 600 9 0)
          (SequenceBasedStrategy.replaceHM 600 9 0 + 1440 * 7)) ∧
    (∀ e, e ∈ (schedule_tasks cexRepoState 600).1.calendar ↔
      ((e ∈ cexRepoState.calendar ∧ ¬ e.type = TimeBlockType.managed) ∨
        e ∈ (schedule_tasks cexRepoState 600).2)) :=
  C8_schedule_tasks cexRepoState 600 (by decide)

/-- Claim C9: under the spec-modelled incremental `reschedule`, every
previously persisted MANAGED event whose owning task (the event id's
base, for chunk events) is outside the dependent closure of the
affected ids appears unchanged — same id, start and end — in the
result. -/
theorem C9_incremental_frame (st : RepoState) (tasks : List Task)
    (affected : List String) (e : Event)
    (he : e ∈ st.calendar) (hm : e.type = TimeBlockType.managed)
    (hout : (dependentClosure tasks affected).contains (baseId e.id) = false) :
    e ∈ reschedule st tasks (some affected) := by
  unfold reschedule
  apply List.mem_append_left
  refine List.mem_filter.mpr ⟨he, ?_⟩
  simp only [hm]
  simpa using hout

/-- Claim C9 witness: the kept MANAGED event of an unrelated task
survives a concrete incremental reschedule unchanged. -/
theorem C9_witness : cexKeptEvent ∈ reschedule cexIncRepoState [] (some ["x"]) :=
  C9_incremental_frame cexIncRepoState [] ["x"] cexKeptEvent (by decide) (by decide)
    (by decide)

end TodoScheduler
